import Mathlib

/- A shallow embedding of the cmenu hierarchical command-menu framework
(src/cmenu.py): the command tree, the exact-match-first resolver
(_Menu._find_commands), dispatch (_Menu._run_command and _Menu.run_line),
completion (_Command.complete, _CommandWithFlags.complete, _Menu.complete),
the input loop (_Menu.loop) with its scripted and test replay modes, the
BreakLoops unwinding machinery (_Menu._break_protected, _Menu.break_loops)
and the Exit and Quit commands. Python strings are modeled as Lean String
values; slicing, startswith and endswith are modeled on the code-point
list underlying a String. Printing is modeled by returning the printed
items; exceptions are modeled as explicit outcome constructors. -/

namespace Cmenu

/-- Python string method s.startswith(pre), on code points. -/
def pyStartsWith (s pre : String) : Bool := pre.data.isPrefixOf s.data

/-- Python string method s.endswith(suf), on code points. -/
def pyEndsWith (s suf : String) : Bool := suf.data.isSuffixOf s.data

/-- Python slicing s[i:] with a possibly negative start index: a negative
index counts from the end of the string and clamps at the start. -/
def pySliceFrom (s : String) (i : Int) : String :=
  if 0 ≤ i then String.mk (s.data.drop i.toNat)
  else String.mk (s.data.drop (s.data.length - i.natAbs))

/-- The argument of the BreakLoops signal raised by _Menu.break_loops: Python
True (break all the loops) or an integer depth N. -/
inductive BreakCount where
  | all : BreakCount
  | num : Nat → BreakCount
deriving DecidableEq, Repr

/-- What one loop boundary does with a caught BreakLoops signal: re-raise it
(with a new count) to the enclosing loop, or swallow it so that this loop
ends and control returns to the caller. -/
inductive BoundaryAction where
  | reraise : BreakCount → BoundaryAction
  | stop : BoundaryAction
deriving DecidableEq, Repr

/-- The except_ helper inside the _Menu._break_protected decorator
(src/cmenu.py lines 275-287). When the menu that owns the boundary has a
parent: True is re-raised unchanged, N greater than 1 is re-raised as N - 1,
and otherwise the signal is swallowed and readline gets the completer of the
parent menu. Without a parent nothing is done, so the signal is swallowed
and the root loop simply ends. -/
def exceptU (hasParent : Bool) (N : BreakCount) : BoundaryAction :=
  if hasParent then
    match N with
    | BreakCount.all => BoundaryAction.reraise BreakCount.all
    | BreakCount.num n =>
      if n > 1 then BoundaryAction.reraise (BreakCount.num (n - 1))
      else BoundaryAction.stop
  else BoundaryAction.stop

/-- Propagation of a BreakLoops signal through a chain of nested menu loops.
The chain lists the menus with a running loop, innermost first; the last
element is the root menu, the only one without a parent, and each other
element has the next element as its parent (each loop was started by
executing a submenu command of the next menu). _Menu.break_loops raises
BreakLoops N inside the innermost loop body, so the boundary of the
innermost menu catches it first with the full count. The result is
some p when the unwinding is swallowed at a boundary whose menu has the
live parent p: the loops of the earlier menus have ended, the completer is
re-pointed at p, and the loop of p resumes. The result is none when the
signal reaches the root boundary: every loop has ended and the interactive
session is over. -/
def unwind {α : Type} (N : BreakCount) : List α → Option α
  | [] => none
  | _m :: rest =>
    match exceptU (!rest.isEmpty) N with
    | BoundaryAction.reraise N2 => unwind N2 rest
    | BoundaryAction.stop =>
      match rest with
      | [] => none
      | p :: _ => some p

/-- An entry of the loop_cmdlines queue of _Menu.loop: a plain command line,
or a TestInteract sentinel (src/cmenu.py lines 89-96) asking for one
interactive line, optionally re-inserting itself. -/
inductive QueueEntry where
  | line : String → QueueEntry
  | interact : Bool → Option String → QueueEntry
deriving DecidableEq, Repr

/-- How one call of _Menu.run_line ends, as seen by the loop in
_Menu.loop: a normal return, a BreakLoops signal raised by some command, or
a ResumeTests signal raised by the ResumeTest command. -/
inductive RunOutcome where
  | cont : RunOutcome
  | breakLoops : BreakCount → RunOutcome
  | resumeTests : RunOutcome
deriving DecidableEq, Repr

/-- How the while-True body of _Menu.loop (src/cmenu.py lines 320-347) is
left: a BreakLoops signal escapes it (to be handled by _break_protected), a
call of input() hits end of input and raises EOFError, the test-mode queue
is exhausted and InsufficientTestCommands is raised, or the unprotected
IndexError of the ResumeTests handler escapes. -/
inductive LoopExit where
  | breakRaised : BreakCount → LoopExit
  | eofError : LoopExit
  | insufficientTest : LoopExit
  | indexCrash : LoopExit
deriving DecidableEq, Repr

/-- The two possible results of one iteration of the while-True body of
_Menu.loop: the loop is left with some exit, or it continues with a new
queue and a new interactive input stream. -/
inductive LoopStep where
  | exit : LoopExit → LoopStep
  | next : List QueueEntry → List String → LoopStep

/-- One iteration of _Menu.loop (src/cmenu.py lines 320-347). The state is
the loop_cmdlines queue and the stream of lines that input() would return
before reaching end of input. Acquisition: an empty queue raises
InsufficientTestCommands in test mode and otherwise falls back to input(),
which raises EOFError when the stream is exhausted; a TestInteract entry
first re-inserts a fresh repeating sentinel when its repeat flag is set and
then reads one line with input(); a plain entry is dispatched directly (in
test mode it is also echoed with the prompt, a print which this model
drops). Dispatch: run_line either returns, so the loop continues, or raises
BreakLoops, which escapes the body toward _break_protected, or raises
ResumeTests, whose handler deletes the head of the queue if that head is a
TestInteract and crashes with an uncaught IndexError when the queue is
empty. -/
def loopStep (exec : String → RunOutcome) (test : Bool) :
    List QueueEntry → List String → LoopStep
  | [], [] => LoopStep.exit (if test then LoopExit.insufficientTest else LoopExit.eofError)
  | [], cmdline :: irest =>
    if test then LoopStep.exit LoopExit.insufficientTest
    else
      match exec cmdline with
      | RunOutcome.cont => LoopStep.next [] irest
      | RunOutcome.breakLoops N => LoopStep.exit (LoopExit.breakRaised N)
      | RunOutcome.resumeTests => LoopStep.exit LoopExit.indexCrash
  | QueueEntry.line s :: qRest, inputs =>
    match exec s with
    | RunOutcome.cont => LoopStep.next qRest inputs
    | RunOutcome.breakLoops N => LoopStep.exit (LoopExit.breakRaised N)
    | RunOutcome.resumeTests =>
      match qRest with
      | [] => LoopStep.exit LoopExit.indexCrash
      | QueueEntry.interact _ _ :: qRest2 => LoopStep.next qRest2 inputs
      | QueueEntry.line s2 :: qRest2 => LoopStep.next (QueueEntry.line s2 :: qRest2) inputs
  | QueueEntry.interact _ _ :: _, [] => LoopStep.exit LoopExit.eofError
  | QueueEntry.interact true _ :: qRest, cmdline :: irest =>
    match exec cmdline with
    | RunOutcome.cont => LoopStep.next (QueueEntry.interact true none :: qRest) irest
    | RunOutcome.breakLoops N => LoopStep.exit (LoopExit.breakRaised N)
    | RunOutcome.resumeTests => LoopStep.next qRest irest
  | QueueEntry.interact false _ :: qRest, cmdline :: irest =>
    match exec cmdline with
    | RunOutcome.cont => LoopStep.next qRest irest
    | RunOutcome.breakLoops N => LoopStep.exit (LoopExit.breakRaised N)
    | RunOutcome.resumeTests =>
      match qRest with
      | [] => LoopStep.exit LoopExit.indexCrash
      | QueueEntry.interact _ _ :: qRest2 => LoopStep.next qRest2 irest
      | QueueEntry.line s2 :: qRest2 => LoopStep.next (QueueEntry.line s2 :: qRest2) irest

/-- A run of _Menu.loop: iterate loopStep until an exit. Each iteration
strictly shrinks the combined length of the queue and of the remaining
interactive input stream, so the iteration terminates. -/
def loopRun (exec : String → RunOutcome) (test : Bool)
    (queue : List QueueEntry) (inputs : List String) : LoopExit :=
  match h : loopStep exec test queue inputs with
  | LoopStep.exit ex => ex
  | LoopStep.next q2 i2 => loopRun exec test q2 i2
termination_by queue.length + inputs.length
decreasing_by
  rcases queue with _ | ⟨s | ⟨rep, m⟩, qRest⟩
  · rcases inputs with _ | ⟨c, irest⟩
    · simp [loopStep] at h
    · simp only [loopStep] at h
      split at h
      · exact absurd h (by simp)
      · rcases hec : exec c with _ | N | _ <;> rw [hec] at h <;> simp only [] at h
        · injection h with h1 h2
          subst h1
          subst h2
          (try simp only [List.length_cons]); omega
        · exact absurd h (by simp)
        · exact absurd h (by simp)
  · simp only [loopStep] at h
    rcases hec : exec s with _ | N | _ <;> rw [hec] at h <;> simp only [] at h
    · injection h with h1 h2
      subst h1
      subst h2
      (try simp only [List.length_cons]); omega
    · exact absurd h (by simp)
    · rcases qRest with _ | ⟨s2 | ⟨rep2, m2⟩, qRest2⟩
      · exact absurd h (by simp)
      · simp only [] at h
        injection h with h1 h2
        subst h1
        subst h2
        (try simp only [List.length_cons]); omega
      · simp only [] at h
        injection h with h1 h2
        subst h1
        subst h2
        (try simp only [List.length_cons]); omega
  · rcases inputs with _ | ⟨c, irest⟩
    · simp [loopStep] at h
    · cases rep
      · simp only [loopStep] at h
        rcases hec : exec c with _ | N | _ <;> rw [hec] at h <;> simp only [] at h
        · injection h with h1 h2
          subst h1
          subst h2
          (try simp only [List.length_cons]); omega
        · exact absurd h (by simp)
        · rcases qRest with _ | ⟨s2 | ⟨rep2, m2⟩, qRest2⟩
          · exact absurd h (by simp)
          · simp only [] at h
            injection h with h1 h2
            subst h1
            subst h2
            (try simp only [List.length_cons]); omega
          · simp only [] at h
            injection h with h1 h2
            subst h1
            subst h2
            (try simp only [List.length_cons]); omega
      · simp only [loopStep] at h
        rcases hec : exec c with _ | N | _ <;> rw [hec] at h <;> simp only [] at h
        · injection h with h1 h2
          subst h1
          subst h2
          (try simp only [List.length_cons]); omega
        · exact absurd h (by simp)
        · injection h with h1 h2
          subst h1
          subst h2
          (try simp only [List.length_cons]); omega

/-- A node of the menu tree: a _Menu with its ordered list of children, a
_CommandWithFlags with its accepted_flags, or a bare _Command (whose
complete method returns the empty list). The child list keeps the insertion
order of the OrderedDict name_to_command. -/
inductive Cmd where
  | menu : String → List Cmd → Cmd
  | flagged : String → List String → Cmd
  | basic : String → Cmd

/-- The name of a command. -/
def Cmd.name : Cmd → String
  | Cmd.menu n _ => n
  | Cmd.flagged n _ => n
  | Cmd.basic n => n

/-- _Menu._find_commands (src/cmenu.py lines 256-265): an exact name match
(the dictionary lookup name_to_command[cmdprefix]) returns just that
command, otherwise every child whose name starts with the given string is
returned, in insertion order. -/
def findCommands (children : List Cmd) (pfx : String) : List Cmd :=
  match children.find? (fun c => c.name == pfx) with
  | some c => [c]
  | none => children.filter (fun c => pyStartsWith c.name pfx)

/-- The outcome of _Menu._run_command with method execute: the unique match
is executed with the remaining arguments, zero matches invoke the
on_bad_command hook (which prints Unrecognized command), two or more invoke
the on_ambiguous_command hook with the full match list (which prints
Ambiguous command and the matched names). -/
inductive DispatchResult where
  | executed : Cmd → List String → DispatchResult
  | badCommand : String → List String → DispatchResult
  | ambiguousCommand : List Cmd → String → List String → DispatchResult

/-- _Menu._run_command (src/cmenu.py lines 366-373) as a function from the
resolved matches to the invoked hook. -/
def runCommandR (children : List Cmd) (pfx : String) (args : List String) : DispatchResult :=
  match findCommands children pfx with
  | [c] => DispatchResult.executed c args
  | [] => DispatchResult.badCommand pfx args
  | c1 :: c2 :: cs => DispatchResult.ambiguousCommand (c1 :: c2 :: cs) pfx args

/-- The complete methods of the three command classes (src/cmenu.py lines
154-161, 189-224 and 393-424). A bare _Command returns no candidates. A
_CommandWithFlags completes its last token against accepted_flags, trimming
a unique match by the difference between the shlex token and the readline
word. A _Menu returns all child names on zero tokens; on one token that the
raw line still ends with, it returns the startswith matches among the child
names, trimming a unique match the same way; otherwise the first token is
already complete, and completion is delegated to the unique resolver match
with the remaining tokens, or returns no candidates when the resolver does
not find exactly one child. -/
def Cmd.complete (c : Cmd) (sp_args : List String) (line rl_pfx : String)
    (rl_begidx rl_endidx : Nat) : List String :=
  match c with
  | Cmd.basic _ => []
  | Cmd.flagged _ accepted_flags =>
    match sp_args.getLast? with
    | none => accepted_flags
    | some last =>
      if pyEndsWith line last then
        match accepted_flags.filter (fun a => pyStartsWith a last) with
        | [m] => [pySliceFrom m ((last.data.length : Int) - (rl_pfx.data.length : Int))]
        | ms => ms
      else accepted_flags
  | Cmd.menu _ children =>
    match sp_args with
    | [] => children.map Cmd.name
    | tok :: rest =>
      if rest.isEmpty && pyEndsWith line tok then
        match (children.map Cmd.name).filter (fun nm => pyStartsWith nm tok) with
        | [m] => [pySliceFrom m ((tok.data.length : Int) - (rl_pfx.data.length : Int))]
        | ms => ms
      else
        match findCommands children tok with
        | [c2] => Cmd.complete c2 rest line rl_pfx rl_begidx rl_endidx
        | _ => []

/-- The registration step of _Command.__init__ (src/cmenu.py lines 145-149)
on the name_to_command mapping of the parent menu, modeled as the ordered
association list plus the raised duplicate name, if any: a free name is
appended at the end of the mapping, a taken name raises
DuplicatedCommandNameError and leaves the mapping untouched. -/
def registerCommand {α : Type} (n2c : List (String × α)) (nm : String) (cmd : α) :
    Option String × List (String × α) :=
  if !((n2c.map Prod.fst).contains nm) then (none, n2c ++ [(nm, cmd)])
  else (some nm, n2c)

/-- _Command.uninstall (src/cmenu.py lines 151-152): del on the mapping of
the parent menu removes the entry under the name; a missing name raises
KeyError (returned as some nm). -/
def uninstallCommand {α : Type} (n2c : List (String × α)) (nm : String) :
    Option String × List (String × α) :=
  if (n2c.map Prod.fst).contains nm then (none, n2c.filter (fun p => p.1 != nm))
  else (some nm, n2c)

/-- What one call of _Menu.run_line (src/cmenu.py lines 352-361) does: an
empty line invokes the on_empty_line hook; otherwise the line is tokenized
(a BadCommandError is caught and printed), an empty token list crashes the
tuple unpacking with an uncaught ValueError, and a head token dispatches
through _Menu.run_command. -/
inductive LineEvent where
  | emptyLineHook : LineEvent
  | badCmdPrinted : String → LineEvent
  | unpackCrash : LineEvent
  | dispatched : DispatchResult → LineEvent

/-- _Menu.run_line. The tokenizer (shlex.split wrapped by SPLIT_ARGS) is an
external collaborator and is passed in as a function returning either the
token list or the message of a BadCommandError. -/
def runLine (children : List Cmd) (tokenize : String → Except String (List String))
    (cmdline : String) : LineEvent :=
  if cmdline = "" then LineEvent.emptyLineHook
  else
    match tokenize cmdline with
    | Except.error msg => LineEvent.badCmdPrinted msg
    | Except.ok [] => LineEvent.unpackCrash
    | Except.ok (pfx :: args) => LineEvent.dispatched (runCommandR children pfx args)

/-- The default on_empty_line hook (src/cmenu.py lines 375-381), as the list
of lines it prints: the body is pass (the listing of the available commands
is only a commented-out TODO), so nothing is printed. -/
def onEmptyLineDefault (_children : List Cmd) : List String := []

/-- Modelled from the spec: the on_empty_line default behavior as the spec
words it, namely that the hook lists the child command names. Stated only
for comparison with onEmptyLineDefault, the embedding of the code. -/
def onEmptyLineSpecced (children : List Cmd) : List String := children.map Cmd.name

/-- What Exit.execute and Quit.execute do: print the Unrecognized arguments
diagnostic, or raise BreakLoops through _Menu.break_loops. -/
inductive ExecEffect where
  | printedUnrecognizedArgs : List String → ExecEffect
  | raisedBreakLoops : BreakCount → ExecEffect
deriving DecidableEq, Repr

/-- Exit.execute (src/cmenu.py lines 706-710): any argument only prints the
diagnostic; with no arguments break_loops(1) raises BreakLoops(1). -/
def exitExecute (args : List String) : ExecEffect :=
  if args.length > 0 then ExecEffect.printedUnrecognizedArgs args
  else ExecEffect.raisedBreakLoops (BreakCount.num 1)

/-- Quit.execute (src/cmenu.py lines 722-726): any argument only prints the
diagnostic; with no arguments break_loops(True) raises BreakLoops(True). -/
def quitExecute (args : List String) : ExecEffect :=
  if args.length > 0 then ExecEffect.printedUnrecognizedArgs args
  else ExecEffect.raisedBreakLoops BreakCount.all

/-- A menu with two sibling commands that share the proper prefix cmd. -/
def demoAmb : List Cmd := [Cmd.basic "cmd1", Cmd.basic "cmd2"]

/-- The completion scenario children list, load, log in registration order. -/
def demoMenuChildren : List Cmd := [Cmd.basic "list", Cmd.basic "load", Cmd.basic "log"]

/-- Helper: a BreakLoops True signal is re-raised at every boundary with a
parent and swallowed at the root, so it unwinds the whole chain. -/
theorem unwind_all {α : Type} (chain : List α) : unwind BreakCount.all chain = none := by
  induction chain with
  | nil => rfl
  | cons m rest ih =>
    cases rest with
    | nil => rfl
    | cons p rest2 => simpa [unwind, exceptU] using ih

/-- Helper: a finite depth N with 1 ≤ N and N below the chain length is
decremented at each boundary it passes and stops with the completer
re-pointed at the menu at position N of the chain. -/
theorem unwind_num_get {α : Type} (chain : List α) : ∀ N : Nat, 1 ≤ N → N < chain.length →
    unwind (BreakCount.num N) chain = chain[N]? := by
  induction chain with
  | nil =>
    intro N h1 h2
    simp at h2
  | cons m rest ih =>
    intro N h1 h2
    cases rest with
    | nil =>
      simp at h2
      omega
    | cons p rest2 =>
      by_cases hN : 1 < N
      · obtain ⟨M, rfl⟩ : ∃ M, N = M + 1 := ⟨N - 1, by omega⟩
        have hgt : M + 1 > 1 := hN
        have hstep : unwind (BreakCount.num (M + 1)) (m :: p :: rest2)
            = unwind (BreakCount.num M) (p :: rest2) := by
          simp [unwind, exceptU, hgt]
        rw [hstep, ih M (by omega) (by simp at h2 ⊢; omega)]
        simp
      · have hN1 : N = 1 := by omega
        subst hN1
        simp [unwind, exceptU]

/-- Claim C4: a BreakLoops signal of finite depth N raised from the
innermost of a chain of nested menu loops is decremented by one at each
boundary it passes, ends exactly N loops (for 1 ≤ N below the chain
length), and stops at the boundary whose live parent exists when the count
is spent, with the completion source re-pointed at that parent (the menu at
position N of the innermost-first chain); raising it with depth True
unwinds every loop to the root and ends the session. -/
theorem unwind_depth_spec (chain : List String) (N : Nat)
    (h1 : 1 ≤ N) (h2 : N < chain.length) :
    unwind (BreakCount.num N) chain = chain[N]? ∧ unwind BreakCount.all chain = none :=
  ⟨unwind_num_get chain N h1 h2, unwind_all chain⟩

/-- Witness for C4: in the chain sub2, sub1, root (innermost first),
EndLoops(2) from sub2 ends the loops of sub2 and sub1 and hands control to
root, and EndLoops(True) ends the session. -/
theorem unwind_depth_spec_witness :
    unwind (BreakCount.num 2) ["sub2", "sub1", "root"] = (["sub2", "sub1", "root"])[2]?
  ∧ unwind BreakCount.all ["sub2", "sub1", "root"] = none :=
  unwind_depth_spec ["sub2", "sub1", "root"] 2 (by decide) (by decide)

/-- Helper: when one iteration exits, the loop returns that exit. -/
theorem loopRun_exit (exec : String → RunOutcome) (test : Bool)
    (q : List QueueEntry) (i : List String) (ex : LoopExit)
    (h : loopStep exec test q i = LoopStep.exit ex) :
    loopRun exec test q i = ex := by
  rw [loopRun]
  split
  · rename_i ex2 heq
    rw [h] at heq
    injection heq with h1
    exact h1.symm
  · rename_i q2 i2 heq
    rw [h] at heq
    exact absurd heq (by simp)

/-- Helper: when one iteration continues, the loop goes on from the new
state. -/
theorem loopRun_next (exec : String → RunOutcome) (test : Bool)
    (q : List QueueEntry) (i : List String) (q2 : List QueueEntry) (i2 : List String)
    (h : loopStep exec test q i = LoopStep.next q2 i2) :
    loopRun exec test q i = loopRun exec test q2 i2 := by
  rw [loopRun]
  split
  · rename_i ex2 heq
    rw [h] at heq
    exact absurd heq (by simp)
  · rename_i q3 i3 heq
    rw [h] at heq
    injection heq with h1 h2
    rw [h1, h2]

/-- Claim C5: a test-mode loop whose queue holds only plain command lines,
none of which ends the menu, raises InsufficientTestCommands when the queue
is exhausted, including the case of a queue that is empty from the start;
the error is a distinct exit, not a caught BreakLoops. -/
theorem loop_test_insufficient (exec : String → RunOutcome)
    (queue : List QueueEntry) (inputs : List String)
    (h : ∀ e ∈ queue, ∃ s, e = QueueEntry.line s ∧ exec s = RunOutcome.cont) :
    loopRun exec true queue inputs = LoopExit.insufficientTest := by
  induction queue with
  | nil =>
    cases inputs with
    | nil => exact loopRun_exit _ _ _ _ _ rfl
    | cons c irest => exact loopRun_exit _ _ _ _ _ rfl
  | cons e qRest ih =>
    obtain ⟨s, rfl, hs⟩ := h e (List.mem_cons_self e qRest)
    have hrest := ih (fun e2 he2 => h e2 (List.mem_cons_of_mem _ he2))
    rw [loopRun_next exec true (QueueEntry.line s :: qRest) inputs qRest inputs
        (by simp [loopStep, hs])]
    exact hrest

/-- Witness for C5: a one-line queue whose line just returns, and the empty
queue, both raise InsufficientTestCommands in test mode. -/
theorem loop_test_insufficient_witness :
    loopRun (fun _ => RunOutcome.cont) true [QueueEntry.line "a"] [] = LoopExit.insufficientTest
  ∧ loopRun (fun _ => RunOutcome.cont) true [] [] = LoopExit.insufficientTest :=
  ⟨loop_test_insufficient _ _ _
      (by
        intro e he
        simp at he
        exact ⟨"a", he, rfl⟩),
    loop_test_insufficient _ _ _ (by intro e he; simp at he)⟩

/-- Counterexample for C6: in non-test mode with an exhausted queue the loop
does not end; it falls back to interactive input. With no interactive line
left, input() raises EOFError (so queue exhaustion by itself did not end
the loop normally), and a line supplied interactively after exhaustion is
consumed and dispatched, so its BreakLoops outcome becomes the exit of the
loop, contradicting that the loop ends without consuming further input. -/
theorem scripted_queue_counterexample :
    loopRun (fun _ => RunOutcome.cont) false [] [] = LoopExit.eofError
  ∧ loopRun (fun _ => RunOutcome.breakLoops (BreakCount.num 7)) false [] ["x"]
      = LoopExit.breakRaised (BreakCount.num 7)
  ∧ LoopExit.breakRaised (BreakCount.num 7) ≠ LoopExit.eofError :=
  ⟨loopRun_exit _ _ _ _ _ rfl, loopRun_exit _ _ _ _ _ rfl, by decide⟩

/-- Claim C6 as amended: in scripted (non-test) mode exhausting the queue
does not end the loop; the loop switches to interactive input, and when
none of the scripted or interactive lines breaks the loop it ends only at
end of interactive input, through the EOFError that the boundary treats
like EndLoops(1). -/
theorem scripted_queue_goes_interactive (exec : String → RunOutcome)
    (queue : List QueueEntry) (inputs : List String)
    (hq : ∀ e ∈ queue, ∃ s, e = QueueEntry.line s ∧ exec s = RunOutcome.cont)
    (hi : ∀ s ∈ inputs, exec s = RunOutcome.cont) :
    loopRun exec false queue inputs = LoopExit.eofError := by
  induction queue with
  | nil =>
    induction inputs with
    | nil => exact loopRun_exit _ _ _ _ _ rfl
    | cons c irest ihi =>
      have hc := hi c (List.mem_cons_self c irest)
      have htail := ihi (fun s hs => hi s (List.mem_cons_of_mem _ hs))
      rw [loopRun_next exec false [] (c :: irest) [] irest (by simp [loopStep, hc])]
      exact htail
  | cons e qRest ih =>
    obtain ⟨s, rfl, hs⟩ := hq e (List.mem_cons_self e qRest)
    have htail := ih (fun e2 he2 => hq e2 (List.mem_cons_of_mem _ he2))
    rw [loopRun_next exec false (QueueEntry.line s :: qRest) inputs qRest inputs
        (by simp [loopStep, hs])]
    exact htail

/-- Witness for C6 (amended): a one-line queue followed by one interactive
line ends at end of input. -/
theorem scripted_queue_goes_interactive_witness :
    loopRun (fun _ => RunOutcome.cont) false [QueueEntry.line "a"] ["b"] = LoopExit.eofError :=
  scripted_queue_goes_interactive _ _ _
    (by
      intro e he
      simp at he
      exact ⟨"a", he, rfl⟩)
    (by intro s hs; rfl)

/-- Helper: with pairwise distinct child names, find? with the exact name
test returns the child bearing that name, wherever it sits in the list. -/
theorem find_name_unique (children : List Cmd) (nm : String) (c : Cmd)
    (hmem : c ∈ children) (hname : c.name = nm)
    (hnodup : (children.map Cmd.name).Nodup) :
    children.find? (fun k => k.name == nm) = some c := by
  induction children with
  | nil => simp at hmem
  | cons a t ih =>
    rcases List.mem_cons.mp hmem with rfl | hmt
    · rw [List.find?_cons_of_pos]
      simp [hname]
    · have hpair : a.name ∉ t.map Cmd.name ∧ (t.map Cmd.name).Nodup := by
        rw [List.map_cons, List.nodup_cons] at hnodup
        exact hnodup
      have hanm : ¬(a.name == nm) = true := by
        simp only [beq_iff_eq]
        intro heq
        have h1 : nm ∈ t.map Cmd.name := List.mem_map.mpr ⟨c, hmt, hname⟩
        exact hpair.1 (heq ▸ h1)
      rw [List.find?_cons_of_neg]
      · exact ih hmt hpair.2
      · exact hanm

/-- Claim C2: an exact registered name resolves to exactly the one command
bearing that name, never a sibling whose name merely extends it; only when
the name is not registered exactly does the resolver return every child
whose name starts with it, in insertion order. -/
theorem findCommands_exact_shadow (children : List Cmd) (nm : String) :
    (∀ c ∈ children, c.name = nm → (children.map Cmd.name).Nodup →
      findCommands children nm = [c])
  ∧ ((∀ c ∈ children, c.name ≠ nm) →
      findCommands children nm = children.filter (fun c => pyStartsWith c.name nm)) := by
  constructor
  · intro c hmem hname hnodup
    simp [findCommands, find_name_unique children nm c hmem hname hnodup]
  · intro hall
    have hnone : children.find? (fun k => k.name == nm) = none := by
      rw [List.find?_eq_none]
      intro k hk
      simp only [beq_iff_eq]
      simpa using hall k hk
    simp [findCommands, hnone]

/-- Witness for C2: with siblings cmd1 and cmd10, resolving cmd1 returns
only the command named cmd1. -/
theorem findCommands_exact_shadow_witness :
    findCommands [Cmd.basic "cmd1", Cmd.basic "cmd10"] "cmd1" = [Cmd.basic "cmd1"] :=
  (findCommands_exact_shadow [Cmd.basic "cmd1", Cmd.basic "cmd10"] "cmd1").1
    (Cmd.basic "cmd1") (List.mem_cons_self _ _) rfl (by decide)

/-- Counterexample for C1: with children cmd1 and cmd2, dispatching the
ambiguous token cmd together with the extra argument x invokes the
on_ambiguous_command hook with both matches; it does not invoke the
on_bad_command (unrecognized) hook the claim requires when extra arguments
are present. -/
theorem ambiguous_with_args_counterexample :
    runCommandR demoAmb "cmd" ["x"]
      = DispatchResult.ambiguousCommand [Cmd.basic "cmd1", Cmd.basic "cmd2"] "cmd" ["x"]
  ∧ runCommandR demoAmb "cmd" ["x"] ≠ DispatchResult.badCommand "cmd" ["x"] := by
  refine ⟨rfl, fun h => ?_⟩
  rw [show runCommandR demoAmb "cmd" ["x"]
      = DispatchResult.ambiguousCommand [Cmd.basic "cmd1", Cmd.basic "cmd2"] "cmd" ["x"]
      from rfl] at h
  exact DispatchResult.noConfusion h

/-- Claim C1 as amended: for every prefix matching two or more child names,
dispatch invokes the on_ambiguous_command hook with all the matches in
registration order, whether or not extra arguments follow the prefix; the
on_bad_command hook is reserved for zero matches. -/
theorem runCommand_ambiguous_any_args (children : List Cmd) (pfx : String)
    (args : List String) (h : 2 ≤ (findCommands children pfx).length) :
    runCommandR children pfx args
      = DispatchResult.ambiguousCommand
          (children.filter (fun c => pyStartsWith c.name pfx)) pfx args
  ∧ findCommands children pfx = children.filter (fun c => pyStartsWith c.name pfx) := by
  have hfind : findCommands children pfx
      = children.filter (fun c => pyStartsWith c.name pfx) := by
    cases hf : children.find? (fun c => c.name == pfx) with
    | none => simp [findCommands, hf]
    | some c =>
      have h1 : findCommands children pfx = [c] := by simp [findCommands, hf]
      rw [h1] at h
      simp at h
  refine ⟨?_, hfind⟩
  rcases hx : children.filter (fun c => pyStartsWith c.name pfx) with _ | ⟨c1, _ | ⟨c2, cs⟩⟩
  · rw [hfind, hx] at h
    simp at h
  · rw [hfind, hx] at h
    simp at h
  · have h2 : runCommandR children pfx args
        = DispatchResult.ambiguousCommand (c1 :: c2 :: cs) pfx args := by
      unfold runCommandR
      rw [hfind, hx]
    rw [h2, hx]

/-- Witness for C1 (amended): the token cmd with the extra argument x on the
menu with children cmd1 and cmd2 invokes the ambiguous hook with both. -/
theorem runCommand_ambiguous_any_args_witness :
    2 ≤ (findCommands demoAmb "cmd").length
  ∧ (runCommandR demoAmb "cmd" ["x"]
      = DispatchResult.ambiguousCommand
          (demoAmb.filter (fun c => pyStartsWith c.name "cmd")) "cmd" ["x"]
    ∧ findCommands demoAmb "cmd" = demoAmb.filter (fun c => pyStartsWith c.name "cmd")) :=
  ⟨by decide, runCommand_ambiguous_any_args demoAmb "cmd" ["x"] (by decide)⟩

/-- Counterexample for C3: on the menu with children list, load and log,
completing the in-progress token lo yields load and log (list does not
start with lo), not the three names the claim lists; and completing li
with readline word-boundary prefix li yields the single full name list,
not the bare suffix st (the trimming formula removes
len(token) - len(external_prefix) = 0 leading characters here). -/
theorem complete_scenario_counterexample :
    Cmd.complete (Cmd.menu "m" demoMenuChildren) ["lo"] "lo" "lo" 0 2 ≠ ["list", "load", "log"]
  ∧ Cmd.complete (Cmd.menu "m" demoMenuChildren) ["li"] "li" "li" 0 2 ≠ ["st"] :=
  ⟨by decide, by decide⟩

/-- Claim C3 as amended: with children list, load, log in registration
order, completing the in-progress token lo returns the startswith matches
load and log in registration order; completing the in-progress token li
with readline word-boundary prefix li returns exactly one candidate, the
unique match trimmed by match[len(token) - len(external_prefix):], which
here is the whole name list because the readline word equals the token. -/
theorem complete_scenario_values :
    Cmd.complete (Cmd.menu "m" demoMenuChildren) ["lo"] "lo" "lo" 0 2 = ["load", "log"]
  ∧ Cmd.complete (Cmd.menu "m" demoMenuChildren) ["li"] "li" "li" 0 2 = ["list"]
  ∧ pySliceFrom "list" (("li".data.length : Int) - ("li".data.length : Int)) = "list" :=
  ⟨rfl, rfl, rfl⟩

/-- Claim C7: when the first token is already complete (more tokens follow,
or the raw line does not end with it), the menu resolves the first token
among its children: a unique resolution delegates completion to that child
with the remaining tokens and the same line and cursor context, and zero or
two-or-more matches return no candidates. -/
theorem menu_complete_delegation (nm tok : String) (children : List Cmd)
    (rest : List String) (line rl_pfx : String) (b e : Nat)
    (hdone : rest = [] → pyEndsWith line tok = false) :
    (∀ c2, findCommands children tok = [c2] →
      Cmd.complete (Cmd.menu nm children) (tok :: rest) line rl_pfx b e
        = Cmd.complete c2 rest line rl_pfx b e)
  ∧ ((findCommands children tok).length ≠ 1 →
      Cmd.complete (Cmd.menu nm children) (tok :: rest) line rl_pfx b e = []) := by
  have hcond : (rest.isEmpty && pyEndsWith line tok) = false := by
    cases rest with
    | nil => simp [hdone rfl]
    | cons r rs => simp
  constructor
  · intro c2 hc2
    simp [Cmd.complete, hcond, hc2]
  · intro hlen
    rcases hx : findCommands children tok with _ | ⟨a, _ | ⟨b2, l⟩⟩
    · simp [Cmd.complete, hcond, hx]
    · rw [hx] at hlen
      simp at hlen
    · simp [Cmd.complete, hcond, hx]

/-- Witness for C7: on the menu with children list, load, log, the complete
first token li with a following token x delegates completion to the unique
match list. -/
theorem menu_complete_delegation_witness :
    Cmd.complete (Cmd.menu "m" demoMenuChildren) ["li", "x"] "li x" "li" 0 4
      = Cmd.complete (Cmd.basic "list") ["x"] "li x" "li" 0 4 :=
  (menu_complete_delegation "m" "li" demoMenuChildren ["x"] "li x" "li" 0 4
    (fun h => absurd h (by simp))).1 (Cmd.basic "list") rfl

/-- Claim C8: registering a command under a name already present in the
mapping of the menu raises DuplicatedCommandNameError and leaves the
mapping unchanged; after uninstalling the entry, registering a new command
under the same name succeeds and appends it at the end. -/
theorem register_duplicate_uninstall {α : Type} (n2c : List (String × α)) (nm : String)
    (cmd cmd2 : α) (h : (n2c.map Prod.fst).contains nm = true) :
    registerCommand n2c nm cmd = (some nm, n2c)
  ∧ uninstallCommand n2c nm = (none, n2c.filter (fun p => p.1 != nm))
  ∧ registerCommand (n2c.filter (fun p => p.1 != nm)) nm cmd2
      = (none, n2c.filter (fun p => p.1 != nm) ++ [(nm, cmd2)]) := by
  have hnot : (((n2c.filter (fun p => p.1 != nm)).map Prod.fst).contains nm) = false := by
    have hmem : nm ∉ (n2c.filter (fun p => p.1 != nm)).map Prod.fst := by
      intro hin
      obtain ⟨p, hp, hpeq⟩ := List.mem_map.mp hin
      have hpf := (List.mem_filter.mp hp).2
      rw [hpeq] at hpf
      simp at hpf
    simpa using hmem
  refine ⟨?_, ?_, ?_⟩
  · unfold registerCommand
    rw [h]
    simp
  · unfold uninstallCommand
    rw [h]
    simp
  · unfold registerCommand
    rw [hnot]
    simp

/-- Witness for C8: a mapping holding foo, a duplicate registration of foo,
the uninstall of foo, and a successful re-registration. -/
theorem register_duplicate_uninstall_witness :
    registerCommand [("foo", 1)] "foo" 2 = (some "foo", [("foo", 1)])
  ∧ uninstallCommand [("foo", 1)] "foo"
      = (none, ([("foo", (1 : Nat))]).filter (fun p => p.1 != "foo"))
  ∧ registerCommand (([("foo", (1 : Nat))]).filter (fun p => p.1 != "foo")) "foo" 3
      = (none, ([("foo", (1 : Nat))]).filter (fun p => p.1 != "foo") ++ [("foo", 3)]) :=
  register_duplicate_uninstall [("foo", 1)] "foo" 2 3 (by decide)

/-- Counterexample for C9: the default on_empty_line hook prints nothing
(its body is pass; the listing of the available commands is only a
commented-out TODO), so it does not list the child names as the claim
states. -/
theorem empty_line_default_counterexample :
    onEmptyLineDefault [Cmd.basic "a", Cmd.basic "b"] = []
  ∧ onEmptyLineDefault [Cmd.basic "a", Cmd.basic "b"]
      ≠ onEmptyLineSpecced [Cmd.basic "a", Cmd.basic "b"] :=
  ⟨rfl, by decide⟩

/-- Claim C9 as amended: running an empty line invokes the on_empty_line
hook, and the default hook does nothing: it prints no output. -/
theorem empty_line_hook (children : List Cmd)
    (tokenize : String → Except String (List String)) :
    runLine children tokenize "" = LineEvent.emptyLineHook
  ∧ onEmptyLineDefault children = [] :=
  ⟨rfl, rfl⟩

/-- Claim C10: Exit and Quit invoked with one or more arguments only print
the Unrecognized arguments diagnostic and raise no BreakLoops signal, so
the enclosing loop continues; with zero arguments Exit raises BreakLoops(1)
and Quit raises BreakLoops(True). -/
theorem exit_quit_args_guard (args : List String) (h : args ≠ []) :
    exitExecute args = ExecEffect.printedUnrecognizedArgs args
  ∧ quitExecute args = ExecEffect.printedUnrecognizedArgs args
  ∧ exitExecute [] = ExecEffect.raisedBreakLoops (BreakCount.num 1)
  ∧ quitExecute [] = ExecEffect.raisedBreakLoops BreakCount.all := by
  have hl : args.length > 0 := List.length_pos.mpr h
  exact ⟨by simp [exitExecute, hl], by simp [quitExecute, hl], rfl, rfl⟩

/-- Witness for C10: the one-argument list x. -/
theorem exit_quit_args_guard_witness :
    exitExecute ["x"] = ExecEffect.printedUnrecognizedArgs ["x"]
  ∧ quitExecute ["x"] = ExecEffect.printedUnrecognizedArgs ["x"]
  ∧ exitExecute [] = ExecEffect.raisedBreakLoops (BreakCount.num 1)
  ∧ quitExecute [] = ExecEffect.raisedBreakLoops BreakCount.all :=
  exit_quit_args_guard ["x"] (by decide)

end Cmenu
